import Mathlib

/-!
Verification development for the pdf-service repository.

The file shallowly embeds the logic that the specification's claims are
about: the HTML preprocessing pipeline of the standalone converter
(`processHTMLContent`, `generateCSS`, `fixCenteringIssues`,
`renderHTMLCodeBlocks`, `convertHTMLToPDF` input validation) and the
pagination loop of the browser popup (`generatePDFFromHTML`).

JavaScript strings are modelled as `List Char`.  The handful of regular
expressions the source uses are modelled by executable scanners that
reproduce the JS backtracking semantics (greedy and lazy stars over
character classes, case-insensitive literals, leftmost match, global
continuation after each match).  All definitions are structurally
recursive (a fuel argument bounds scanning depth by the string length),
so every concrete instance evaluates by `decide`.
-/

set_option maxRecDepth 40000

namespace PdfService

/-- Canonicalised prefix test: `prefB f pat s` holds when mapping `f` over
the first `pat.length` characters of `s` yields `pat`.  With `f = id` this
is the exact prefix test used by `String.prototype.replace`/`includes`;
with `f = Char.toLower` it is the ASCII case-insensitive test used for the
source's `/i` regex flags (patterns are stored lower-case). -/
def prefB (f : Char → Char) : List Char → List Char → Bool
  | [], _ => true
  | _ :: _, [] => false
  | p :: ps, c :: cs => (p == f c) && prefB f ps cs

/-- Number of (possibly overlapping) occurrences of `pat` in `s`, compared
through the canonicaliser `f`. -/
def countOccurBy (f : Char → Char) (pat : List Char) : List Char → Nat
  | [] => 0
  | c :: cs => (if prefB f pat (c :: cs) then 1 else 0) + countOccurBy f pat cs

/-- Exact (case-sensitive) occurrence count. -/
def countOccur (pat s : List Char) : Nat := countOccurBy id pat s

/-- JS `String.prototype.includes` with a string argument. -/
def containsSubB (pat : List Char) : List Char → Bool
  | [] => pat.isEmpty
  | c :: cs => prefB id pat (c :: cs) || containsSubB pat cs

/-- Split `s` at the first exact occurrence of `pat`: `some (before, after)`
with `s = before ++ pat ++ after`, or `none` when `pat` does not occur. -/
def splitFirst (pat : List Char) : List Char → Option (List Char × List Char)
  | [] => if pat.isEmpty then some ([], []) else none
  | c :: cs =>
    if prefB id pat (c :: cs) then some ([], List.drop pat.length (c :: cs))
    else (splitFirst pat cs).map (fun p => (c :: p.1, p.2))

/-- JS `s.replace(pat, rep)` with a plain-string pattern: replace the first
occurrence only, return `s` unchanged when `pat` does not occur. -/
def replaceFirst (s pat rep : List Char) : List Char :=
  match splitFirst pat s with
  | some (a, b) => a ++ rep ++ b
  | none => s

/-- Split `s` at the first case-insensitive occurrence of the (lower-case)
`pat`: `some (before, slice, after)` where `slice` is the original text
that matched. -/
def splitFirstCI (pat : List Char) : List Char → Option (List Char × List Char × List Char)
  | [] => none
  | c :: cs =>
    if prefB Char.toLower pat (c :: cs) then
      some ([], List.take pat.length (c :: cs), List.drop pat.length (c :: cs))
    else (splitFirstCI pat cs).map (fun p => (c :: p.1, p.2.1, p.2.2))

/-- Test of the regex `/<tag[^>]*>/i` on `s` (as used for shell detection):
the tag opener occurs case-insensitively, with some `>` at or after the
position following it (the backtracking `[^>]*>` succeeds exactly then). -/
def tagTestB (tag : List Char) : List Char → Bool
  | [] => false
  | c :: cs =>
    (prefB Char.toLower tag (c :: cs) && (List.drop tag.length (c :: cs)).contains '>')
      || tagTestB tag cs

/-- Decimal digit character. -/
def digitChar (n : Nat) : Char := Char.ofNat (48 + n % 10)

/-- Accumulator loop for `natChars`; the fuel bounds the number of digits. -/
def natCharsAux : Nat → Nat → List Char → List Char
  | 0, _, acc => acc
  | fuel + 1, n, acc => if n = 0 then acc else natCharsAux fuel (n / 10) (digitChar (n % 10) :: acc)

/-- Decimal rendering of a natural number, as a JS template literal renders
the numeric `config.margin`. -/
def natChars (n : Nat) : List Char := if n = 0 then ['0'] else natCharsAux n n []

/-- The settings subset consumed by `processHTMLContent`: margin in mm,
`includeFonts`, `renderCodeBlocks` (pdf-converter.js `config`). -/
structure Config where
  margin : Nat
  includeFonts : Bool
  renderCodeBlocks : Bool
deriving DecidableEq

/-- The defaults merged in by `convertHTMLToPDF`: margin 10, fonts on,
code-block rendering on. -/
def defaultConfig : Config := ⟨10, true, true⟩

/-! Verbatim text segments of the `generateCSS` template literal in
pdf-converter.js (between its interpolation sites), of the full-document
shell of `processHTMLContent`, and of the preview block template of
`renderHTMLCodeBlocks`.  Literal braces are written `\x7b`/`\x7d`. -/

def cssSegA : String := "\n    <style>\n        /* Import Liberation Serif font from Google Fonts if enabled */\n        /* This font provides excellent readability and professional appearance */\n        "

def cssSegB : String := "\n        \n        /* Base styles for the document body */\n        /* These styles establish the foundation for all content */\n        body \x7b\n            font-family: "

def cssSegC : String := " !important;\n            font-size: 12pt; /* Standard document font size */\n            line-height: 1.4; /* Comfortable reading line height */\n            margin: "

def cssSegD : String := "mm; /* Apply configured margins */\n            color: #333; /* Dark gray for good readability */\n            background: white; /* Clean white background */\n        \x7d\n        \n        /* Heading styles with proper hierarchy and spacing */\n        /* Headings use the same font family for consistency */\n        h1, h2, h3, h4, h5, h6 \x7b\n            font-family: "

def cssSegE : String := " !important;\n            color: #000000 !important; /* Pure black for headings - no blue tint */\n            background: none !important; /* Remove any background gradients */\n            border: none !important; /* Remove any borders */\n            text-decoration: none !important; /* Remove any underlines */\n            box-shadow: none !important; /* Remove any shadows */\n            margin-top: 1.5em; /* Generous top margin */\n            margin-bottom: 0.5em; /* Tighter bottom margin */\n            page-break-after: avoid; /* Prevent headings from being orphaned at page breaks */\n        \x7d\n        \n        /* Specific heading sizes for clear hierarchy */\n        h1 \x7b font-size: 24pt; \x7d /* Main title */\n        h2 \x7b font-size: 20pt; \x7d /* Section headers */\n        h3 \x7b font-size: 16pt; \x7d /* Subsection headers */\n        \n        /* Apply consistent font family to all text elements */\n        /* This ensures typography consistency throughout the document */\n        p, div, span, li, td, th \x7b\n            font-family: "

def cssSegF1 : String := " !important;\n        \x7d\n        \n        /* Code blocks styling for technical content */\n        /* Uses monospace font for code readability */\n        pre, code \x7b\n            font-family: 'Courier New', 'Consolas', 'Monaco', monospace !important;\n            background-color: #f8f9fa; /* Light gray background */\n            padding: 8px; /* Internal spacing */\n            border-radius: 4px; /* Rounded corners */\n            border: 1px solid #e9ecef; /* Subtle border */\n            white-space: pre-wrap; /* Preserve whitespace and wrap long lines */\n            word-wrap: break-word; /* Break long words to prevent overflow */\n        \x7d\n        \n        /* Table styles for data presentation */\n        /* Ensures tables are well-formatted and readable */\n        table \x7b\n            border-collapse: collapse; /* Remove spacing between cells */\n            width: 100%; /* Full width tables */\n            margin: 1em 0; /* Vertical spacing around tables */\n            page-break-inside: avoid; /* Keep tables together on same page */\n        \x7d\n        \n        /* Table cell styling */\n        th, td \x7b"

def cssSegF2 : String := "\n            border: 1px solid #ddd; /* Light gray borders */\n            padding: 8px; /* Cell padding */\n            text-align: left; /* Left-aligned text */\n        \x7d\n        \n        /* Table header styling */\n        th \x7b\n            background-color: #f8f9fa; /* Light background for headers */\n            font-weight: bold; /* Bold text for headers */\n        \x7d\n        \n        /* Image styling for media content */\n        /* Ensures images scale properly and don't break across pages */\n        img \x7b\n            max-width: 100%; /* Prevent images from overflowing */\n            height: auto; /* Maintain aspect ratio */\n            page-break-inside: avoid; /* Keep images with their content */\n        \x7d\n        \n        /* List styling for organized content */\n        /* Provides proper indentation and spacing for lists */\n        ul, ol \x7b\n            margin: 1em 0; /* Vertical spacing around lists */\n            padding-left: 2em; /* Indent list items */\n        \x7d\n        \n        /* List item styling */\n        li \x7b\n            margin: 0.5em 0; /* Spacing between list items */"

def cssSegF3 : String := "\n        \x7d\n        \n        /* Blockquote styling for citations and quotes */\n        /* Provides visual distinction for quoted content */\n        blockquote \x7b\n            border-left: 4px solid #007bff; /* Blue left border */\n            margin: 1em 0; /* Vertical spacing */\n            padding-left: 1em; /* Left padding for content */\n            font-style: italic; /* Italic text for quotes */\n            color: #666; /* Gray color for subtle appearance */\n        \x7d\n        \n        /* Page break controls for layout management */\n        /* These classes can be used in HTML to control page breaks */\n        .page-break \x7b\n            page-break-before: always; /* Force page break before element */\n        \x7d\n        \n        .no-break \x7b\n            page-break-inside: avoid; /* Prevent element from breaking across pages */\n        \x7d\n        \n        /* Print-specific styles for PDF optimization */\n        /* These styles ensure optimal rendering in PDF format */\n        @media print \x7b\n            body \x7b\n                margin: 0; /* Remove body margins for print */\n                padding: "

def cssSegG : String := "mm; /* Apply margins as padding */\n            \x7d\n            \n            /* Ensure good contrast and color accuracy for printing */\n            /* This is crucial for PDF generation quality */\n            * \x7b\n                -webkit-print-color-adjust: exact !important;\n                color-adjust: exact !important;\n            \x7d\n        \x7d\n    </style>"

def importSeg : String := "\n        @import url('https://fonts.googleapis.com/css2?family=Liberation+Serif:ital,wght@0,400;0,700;1,400;1,700&display=swap');\n        "

def serifWithLib : String := "'Liberation Serif', 'Times New Roman', 'Georgia', serif"

def serifNoLib : String := "'Times New Roman', 'Georgia', serif"

def wrapSegA : String := "<!DOCTYPE html>\n<html lang=\"en\">\n<head>\n    <meta charset=\"UTF-8\">\n    <meta name=\"viewport\" content=\"width=device-width, initial-scale=1.0\">\n    <title>HTML to PDF</title>\n    "

def wrapSegB : String := "\n</head>\n<body>\n    "

def wrapSegC : String := "\n</body>\n</html>"

def previewSegA : String := "\n                <div style=\"border: 1px solid #ddd; padding: 10px; margin: 10px 0; background-color: #f9f9f9;\">\n                    <div style=\"font-weight: bold; margin-bottom: 5px; color: #666;\">Rendered HTML Preview:</div>\n                    <div>"

def previewSegB : String := "</div>\n                </div>"

/-- The font-family value of the two `config.includeFonts` ternaries. -/
def serifFamily (includeFonts : Bool) : List Char :=
  if includeFonts then serifWithLib.data else serifNoLib.data

/-- The conditional `@import` segment (empty string when fonts are off). -/
def fontImport (includeFonts : Bool) : List Char :=
  if includeFonts then importSeg.data else []

/-- `generateCSS` of pdf-converter.js: the `<style>` block template with
its six interpolation sites filled in. -/
def generateCSS (config : Config) : List Char :=
  cssSegA.data ++ fontImport config.includeFonts ++ cssSegB.data
    ++ serifFamily config.includeFonts ++ cssSegC.data ++ natChars config.margin
    ++ cssSegD.data ++ serifFamily config.includeFonts ++ cssSegE.data
    ++ serifFamily config.includeFonts ++ cssSegF1.data ++ cssSegF2.data ++ cssSegF3.data
    ++ natChars config.margin
    ++ cssSegG.data

/-- The literal `</head>` that `processHTMLContent` splices the style block
in front of (the `replace` pattern is case-sensitive). -/
def headClose : List Char := ['<', '/', 'h', 'e', 'a', 'd', '>']

/-- Shell detection of `processHTMLContent`: the three `/<html[^>]*>/i`,
`/<head[^>]*>/i`, `/<body[^>]*>/i` tests. -/
def detectComplete (s : List Char) : Bool :=
  tagTestB "<html".data s && tagTestB "<head".data s && tagTestB "<body".data s

/-- The full-document shell `processHTMLContent` wraps a partial document
in (DOCTYPE, meta, title, generated style block, input verbatim as body). -/
def wrapDocument (config : Config) (s : List Char) : List Char :=
  wrapSegA.data ++ generateCSS config ++ wrapSegB.data ++ s ++ wrapSegC.data

/-- Shell-detection + style-injection step of `processHTMLContent`
(pdf-converter.js lines 225-252): a detected complete document gets the
generated CSS spliced before the first `</head>`; anything else is wrapped
in the full shell. -/
def shellStep (config : Config) (s : List Char) : List Char :=
  if detectComplete s then replaceFirst s headClose (generateCSS config ++ ('\n' :: headClose))
  else wrapDocument config s

/-- The literal `<pre><code>` opener of the code-block regex. -/
def preCodeOpen : List Char := ['<', 'p', 'r', 'e', '>', '<', 'c', 'o', 'd', 'e', '>']

/-- The literal `</code></pre>` closer of the code-block regex. -/
def codeCloseTag : List Char := ['<', '/', 'c', 'o', 'd', 'e', '>', '<', '/', 'p', 'r', 'e', '>']

/-- The preview block appended after a code block that passes the
angle-bracket heuristic. -/
def previewFor (codeContent : List Char) : List Char :=
  previewSegA.data ++ codeContent ++ previewSegB.data

/-- Scanner for `renderHTMLCodeBlocks`'s global regex
`/<pre><code>([\s\S]*?)<\/code><\/pre>/gi`: at each position, match the
opener case-insensitively, take the lazily-shortest content up to the
first `</code></pre>`, keep the matched span verbatim, append the preview
exactly when the content contains both `<` and `>`, and continue after the
matched span.  The fuel (instantiated with the string length) only bounds
the recursion; it never runs out on the actual argument. -/
def renderAux : Nat → List Char → List Char
  | 0, s => s
  | _ + 1, [] => []
  | fuel + 1, c :: cs =>
    if prefB Char.toLower preCodeOpen (c :: cs) then
      match splitFirstCI codeCloseTag (List.drop preCodeOpen.length (c :: cs)) with
      | some (content, closeSlice, rest) =>
        List.take preCodeOpen.length (c :: cs) ++ content ++ closeSlice
          ++ (if content.contains '<' && content.contains '>' then previewFor content else [])
          ++ renderAux fuel rest
      | none => c :: renderAux fuel cs
    else c :: renderAux fuel cs

/-- `renderHTMLCodeBlocks` of pdf-converter.js. -/
def renderHTMLCodeBlocks (s : List Char) : List Char := renderAux s.length s

/-- The same scan as `renderAux`, deciding whether any code block would
receive a preview (its content has both `<` and `>`). -/
def hasRenderableAux : Nat → List Char → Bool
  | 0, _ => false
  | _ + 1, [] => false
  | fuel + 1, c :: cs =>
    if prefB Char.toLower preCodeOpen (c :: cs) then
      match splitFirstCI codeCloseTag (List.drop preCodeOpen.length (c :: cs)) with
      | some (content, _, rest) =>
        (content.contains '<' && content.contains '>') || hasRenderableAux fuel rest
      | none => hasRenderableAux fuel cs
    else hasRenderableAux fuel cs

/-- Whether some `<pre><code>…</code></pre>` block of `s` passes the
angle-bracket heuristic. -/
def hasRenderableBlock (s : List Char) : Bool := hasRenderableAux s.length s

/-- One atom of the two centering regexes: a case-insensitive literal, a
single character class, a greedy star over a character class, or the lazy
any-character star `[\s\S]*?`. -/
inductive RItem where
  | lit (cs : List Char)
  | cls (p : Char → Bool)
  | starG (p : Char → Bool)
  | starL

/-- Backtracking matcher for a sequence of `RItem`s anchored at the head of
`s`, in JS order: a greedy star tries the longest extension first, the lazy
star the shortest, earlier items backtrack before later ones.  On success
it returns the per-item consumed lengths (in order).  The fuel bounds the
depth of one backtracking path; `matchFuel` is always sufficient. -/
def matchItems : Nat → List RItem → List Char → Option (List Nat)
  | 0, _, _ => none
  | _ + 1, [], _ => some []
  | fuel + 1, .lit cs :: rest, s =>
    if prefB Char.toLower cs s then
      (matchItems fuel rest (List.drop cs.length s)).map (cs.length :: ·)
    else none
  | _ + 1, .cls _ :: _, [] => none
  | fuel + 1, .cls p :: rest, c :: s =>
    if p c then (matchItems fuel rest s).map (1 :: ·) else none
  | fuel + 1, .starG _ :: rest, [] => (matchItems fuel rest []).map (0 :: ·)
  | fuel + 1, .starG p :: rest, c :: s =>
    if p c then
      match matchItems fuel (.starG p :: rest) s with
      | some (n :: ns) => some ((n + 1) :: ns)
      | _ => (matchItems fuel rest (c :: s)).map ((0 : Nat) :: ·)
    else (matchItems fuel rest (c :: s)).map ((0 : Nat) :: ·)
  | fuel + 1, .starL :: rest, s =>
    match matchItems fuel rest s with
    | some ns => some ((0 : Nat) :: ns)
    | none =>
      match s with
      | [] => none
      | _ :: cs =>
        match matchItems fuel (.starL :: rest) cs with
        | some (n :: ns) => some ((n + 1) :: ns)
        | _ => none

/-- A pattern with one capture group: the items before the group, the
group's items, and the items after it. -/
structure CPattern where
  pre : List RItem
  grp : List RItem
  post : List RItem

/-- Sufficient backtracking-path depth: every matcher step either consumes
a character or retires an item. -/
def matchFuel (items : List RItem) (s : List Char) : Nat := s.length + items.length + 1

/-- Anchored match of a `CPattern` at the head of `s`: the lengths consumed
by the pre-group, group, and post-group parts. -/
def matchParts (pat : CPattern) (s : List Char) : Option (Nat × Nat × Nat) :=
  let items := pat.pre ++ pat.grp ++ pat.post
  match matchItems (matchFuel items s) items s with
  | none => none
  | some ns =>
    some ((List.take pat.pre.length ns).sum,
      (List.take pat.grp.length (List.drop pat.pre.length ns)).sum,
      (List.take pat.post.length (List.drop (pat.pre.length + pat.grp.length) ns)).sum)

/-- JS `s.replace(regex-with-g-flag, cb)`: scan left to right, at each
position try the anchored match; on success emit `cb match group` and
continue after the matched span; otherwise copy the character. -/
def replaceAllAux (pat : CPattern) (cb : List Char → List Char → List Char) :
    Nat → List Char → List Char
  | 0, s => s
  | _ + 1, [] => []
  | fuel + 1, c :: cs =>
    match matchParts pat (c :: cs) with
    | some (n1, n2, n3) =>
      cb (List.take (n1 + n2 + n3) (c :: cs)) (List.take n2 (List.drop n1 (c :: cs)))
        ++ replaceAllAux pat cb fuel (List.drop (n1 + n2 + n3) (c :: cs))
    | none => c :: replaceAllAux pat cb fuel cs

/-- Global regex replace over `s`. -/
def replaceAllRe (pat : CPattern) (cb : List Char → List Char → List Char)
    (s : List Char) : List Char :=
  replaceAllAux pat cb s.length s

/-- Does the pattern match anywhere in `s`? (the source's `regex.test` and
null-check of `String.prototype.match`). -/
def hasMatchAux (pat : CPattern) : Nat → List Char → Bool
  | 0, _ => false
  | _ + 1, [] => false
  | fuel + 1, c :: cs => (matchParts pat (c :: cs)).isSome || hasMatchAux pat fuel cs

/-- `regex.test s`. -/
def testRe (pat : CPattern) (s : List Char) : Bool := hasMatchAux pat s.length s

/-- The character class `[^>]`. -/
def notGt (c : Char) : Bool := c != '>'

/-- The regex class `\s` (ASCII part; the source's inputs only use ASCII
whitespace). -/
def jsWs (c : Char) : Bool :=
  c == ' ' || c == '\t' || c == '\n' || c == '\r' || c == '\x0b' || c == '\x0c'

/-- The character class `["']`. -/
def quoteCh (c : Char) : Bool := c == '"' || c == '\''

/-- The character class `[^"']`. -/
def notQuote (c : Char) : Bool := !quoteCh c

/-- Items of the capture group shared by both centering regexes:
`(<div[^>]*style\s*=\s*["'][^"']*margin\s*:\s*[^"']*auto[^"']*["'][^>]*>[\s\S]*?<\/div>)`. -/
def innerDivItems : List RItem :=
  [.lit "<div".data, .starG notGt, .lit "style".data, .starG jsWs, .lit "=".data, .starG jsWs,
   .cls quoteCh, .starG notQuote, .lit "margin".data, .starG jsWs, .lit ":".data, .starG jsWs,
   .starG notQuote, .lit "auto".data, .starG notQuote, .cls quoteCh, .starG notGt, .lit ">".data,
   .starL, .lit "</div>".data]

/-- Items of the `\s*<\/div>` tail of both centering regexes. -/
def closeDivItems : List RItem := [.starG jsWs, .lit "</div>".data]

/-- Regex `centeringPattern` of `fixCenteringIssues`:
`/<div[^>]*class\s*=\s*["']content["'][^>]*>\s*(…inner…)\s*<\/div>/gi`. -/
def contentPattern : CPattern :=
  ⟨[.lit "<div".data, .starG notGt, .lit "class".data, .starG jsWs, .lit "=".data, .starG jsWs,
    .cls quoteCh, .lit "content".data, .cls quoteCh, .starG notGt, .lit ">".data, .starG jsWs],
   innerDivItems, closeDivItems⟩

/-- Regex `generalCenteringPattern` of `fixCenteringIssues`:
`/<div[^>]*>\s*(…inner…)\s*<\/div>/gi`. -/
def generalPattern : CPattern :=
  ⟨[.lit "<div".data, .starG notGt, .lit ">".data, .starG jsWs], innerDivItems, closeDivItems⟩

/-- The `.replace(/<\/div>$/, '')` step of the callback: strip one
trailing (case-sensitive) `</div>`. -/
def stripTrailDiv (l : List Char) : List Char :=
  if List.isSuffixOf "</div>".data l then List.take (l.length - 6) l else l

/-- The `hasMinimalStyling` check of the general-pattern callback: the
wrapper has no `style=` at all, or an empty `style=""`/`style=''`. -/
def hasMinimalStylingB (wrapperDiv : List Char) : Bool :=
  !containsSubB "style=".data wrapperDiv
    || containsSubB "style=\"\"".data wrapperDiv
    || containsSubB "style=''".data wrapperDiv

/-- The `hasCenteringStyles` check of the general-pattern callback. -/
def hasCenteringStylesB (innerDiv : List Char) : Bool :=
  containsSubB "margin:".data innerDiv
    && (containsSubB "auto".data innerDiv || containsSubB "center".data innerDiv)

/-- The replacement callback of the general centering pattern: keep the
match unless the wrapper's styling is minimal and the inner div has
centering styles, in which case return the inner div only. -/
def generalCallback (m innerDiv : List Char) : List Char :=
  if hasMinimalStylingB (stripTrailDiv (replaceFirst m innerDiv []))
      && hasCenteringStylesB innerDiv then innerDiv
  else m

/-- `fixCenteringIssues` of pdf-converter.js: first the `class="content"`
pattern is replaced by its capture group unconditionally (when it matches
at all), then the general wrapper pattern is replaced through
`generalCallback`. -/
def fixCenteringIssues (htmlContent : List Char) : List Char :=
  let afterContent :=
    if testRe contentPattern htmlContent then
      replaceAllRe contentPattern (fun _ g => g) htmlContent
    else htmlContent
  if testRe generalPattern afterContent then
    replaceAllRe generalPattern generalCallback afterContent
  else afterContent

/-- `processHTMLContent` of pdf-converter.js: centering fix, shell
detection + style injection, then optional code-block rendering. -/
def processHTMLContent (htmlContent : List Char) (config : Config) : List Char :=
  if config.renderCodeBlocks then
    renderHTMLCodeBlocks (shellStep config (fixCenteringIssues htmlContent))
  else shellStep config (fixCenteringIssues htmlContent)

/-- The wrap path of `processHTMLContent` (taken when shell detection
fails): full-document wrapping followed by the optional code-block pass. -/
def wrapPath (config : Config) (fixed : List Char) : List Char :=
  if config.renderCodeBlocks then renderHTMLCodeBlocks (wrapDocument config fixed)
  else wrapDocument config fixed

/-- The page-addition loop of `generatePDFFromHTML` (popup.js 412-423):
`heightLeft` starts at the image height minus one page height (the first
page is added before the loop), and while `heightLeft >= 0` another page
is added and a further page height subtracted.  The count of loop
iterations is returned; the fuel (instantiated with `imgHeight + 1`) is
sufficient for every positive page height.  Heights are modelled over
`Int` (the claim's exact-multiple case `H = k * P` is represented exactly
there, as it is in the JS floats for integral inputs). -/
def pageLoop : Nat → Int → Int → Nat
  | 0, _, _ => 0
  | fuel + 1, heightLeft, pageHeight =>
    if 0 ≤ heightLeft then pageLoop fuel (heightLeft - pageHeight) pageHeight + 1 else 0

/-- Total number of PDF pages produced by `generatePDFFromHTML` for an
image of height `imgHeight` and a page content height `pageHeight` (same
units): the initial `addImage` page plus one page per loop iteration. -/
def numPages (imgHeight pageHeight : Nat) : Nat :=
  1 + pageLoop (imgHeight + 1) ((imgHeight : Int) - (pageHeight : Int)) (pageHeight : Int)

/-- Number of page slices the specification demands:
`ceil(imgHeight / pageHeight)`. -/
def ceilPages (imgHeight pageHeight : Nat) : Nat :=
  (imgHeight + pageHeight - 1) / pageHeight

/-- The options argument of `convertHTMLToPDF` (all fields optional). -/
structure ConvertOptions where
  pageSize : Option String
  orientation : Option String
  margin : Option Nat
  includeFonts : Option Bool
  renderCodeBlocks : Option Bool

/-- An empty options object (the parameter default `{}`). -/
def noOptions : ConvertOptions := ⟨none, none, none, none, none⟩

/-- The default-merging of `convertHTMLToPDF`.  The source first computes
`options.margin || 10`, `options.includeFonts !== false`,
`options.renderCodeBlocks !== false`, but then spreads `...options` LAST,
so every field present in `options` overwrites its computed default with
the caller's raw value: the net effect is the raw value when present and
the default otherwise. -/
def mkConfig (options : ConvertOptions) : Config :=
  ⟨options.margin.getD 10, options.includeFonts.getD true, options.renderCodeBlocks.getD true⟩

/-- Outcome of `convertHTMLToPDF` up to the effectful boundary.  In the
source, the two input validations throw before `puppeteer.launch` is
called, so `inputError` means no rendering resource was acquired;
`conversion` is the state after the browser session is entered: the merged
config and the processed HTML handed to the page. -/
inductive ConvertOutcome where
  | inputError (msg : String)
  | conversion (config : Config) (processedHTML : List Char)
deriving DecidableEq

/-- Input validation and default-merging of `convertHTMLToPDF`
(pdf-converter.js lines 90-142).  A JS falsy check on a string argument is
exactly the emptiness test. -/
def convertHTMLToPDF (htmlContent outputPath : List Char) (options : ConvertOptions) :
    ConvertOutcome :=
  if htmlContent.isEmpty then .inputError "htmlContent must be a non-empty string"
  else if outputPath.isEmpty then .inputError "outputPath must be a non-empty string"
  else
    let config := mkConfig options
    .conversion config (processHTMLContent htmlContent config)

/-- Concatenation of a list of string segments (used to state occurrence
counts over long concrete strings piecewise). -/
def catSegs : List (List Char) → List Char
  | [] => []
  | s :: r => s ++ catSegs r

/-- The substring `<style` that every generated style block starts with. -/
def styleOpen : List Char := ['<', 's', 't', 'y', 'l', 'e']

/-- The substring `<html` (for counting document roots). -/
def htmlOpen : List Char := ['<', 'h', 't', 'm', 'l']

/-- The segments of `generateCSS defaultConfig`, in template order. -/
def cssDefaultSegs : List (List Char) :=
  [cssSegA.data, importSeg.data, cssSegB.data, serifWithLib.data, cssSegC.data, natChars 10,
   cssSegD.data, serifWithLib.data, cssSegE.data, serifWithLib.data, cssSegF1.data,
   cssSegF2.data, cssSegF3.data, natChars 10, cssSegG.data]

/-- The segments of `shellStep defaultConfig (shellStep defaultConfig "X")`:
the wrapped document with the generated CSS injected a second time before
its `</head>`. -/
def wrappedTwiceSegs : List (List Char) :=
  [wrapSegA.data] ++ cssDefaultSegs ++ [['\n']] ++ cssDefaultSegs
    ++ [('\n' :: headClose), "\n<body>\n    ".data, "X".data, wrapSegC.data]

/-! ## Toolkit lemmas about the string scanners -/

theorem prefB_length_le {f : Char → Char} {pat s : List Char}
    (h : prefB f pat s = true) : pat.length ≤ s.length := by
  induction pat generalizing s with
  | nil => simp
  | cons p ps ih =>
    cases s with
    | nil => simp [prefB] at h
    | cons c cs =>
      simp only [prefB, Bool.and_eq_true] at h
      simpa using ih h.2

theorem countBy_cons (f : Char → Char) (pat : List Char) (c : Char) (cs : List Char) :
    countOccurBy f pat (c :: cs)
      = (if prefB f pat (c :: cs) then 1 else 0) + countOccurBy f pat cs := rfl

theorem prefB_append_left {f : Char → Char} {pat l : List Char} (m : List Char)
    (h : prefB f pat l = true) : prefB f pat (l ++ m) = true := by
  induction pat generalizing l with
  | nil => simp [prefB]
  | cons p ps ih =>
    cases l with
    | nil => simp [prefB] at h
    | cons c cs =>
      simp only [List.cons_append, prefB, Bool.and_eq_true] at h ⊢
      exact ⟨h.1, ih h.2⟩

theorem prefB_take (f : Char → Char) (pat s : List Char) :
    prefB f pat s = prefB f pat (List.take pat.length s) := by
  induction pat generalizing s with
  | nil => simp [prefB]
  | cons p ps ih =>
    cases s with
    | nil => simp
    | cons c cs => simp only [List.length_cons, List.take_succ_cons, prefB, ih cs]

theorem take_append_take (x : List Char) :
    ∀ (n k : Nat) (y : List Char), n ≤ x.length + k →
      List.take n (x ++ List.take k y) = List.take n (x ++ y) := by
  induction x with
  | nil =>
    intro n k y h
    simp only [List.nil_append, List.take_take]
    simp only [List.length_nil, Nat.zero_add] at h
    simp [Nat.min_eq_left h]
  | cons a x ih =>
    intro n k y h
    cases n with
    | zero => simp
    | succ m =>
      simp only [List.cons_append, List.take_succ_cons]
      rw [ih m k y (by simp at h; omega)]

theorem prefB_append_take (f : Char → Char) {x : List Char} (hx : x ≠ [])
    (pat y : List Char) :
    prefB f pat (x ++ List.take (pat.length - 1) y) = prefB f pat (x ++ y) := by
  rw [prefB_take f pat (x ++ List.take (pat.length - 1) y), prefB_take f pat (x ++ y)]
  rw [take_append_take x pat.length (pat.length - 1) y]
  have : 1 ≤ x.length := by
    cases x with
    | nil => simp at hx
    | cons a l => simp
  omega

theorem countBy_short (f : Char → Char) (pat s : List Char)
    (h : s.length < pat.length) : countOccurBy f pat s = 0 := by
  induction s with
  | nil => simp [countOccurBy]
  | cons c cs ih =>
    rw [countBy_cons]
    have hp : prefB f pat (c :: cs) = false := by
      cases hpre : prefB f pat (c :: cs) with
      | false => rfl
      | true =>
        have hle := prefB_length_le hpre
        simp only [List.length_cons] at hle h
        omega
    rw [hp]
    have hcs : cs.length < pat.length := by
      simp only [List.length_cons] at h
      omega
    simp [ih hcs]

theorem countBy_chunk (f : Char → Char) (p : Char) (ps x y : List Char) :
    countOccurBy f (p :: ps) (x ++ y) =
      countOccurBy f (p :: ps) (x ++ List.take ps.length y)
        + countOccurBy f (p :: ps) y := by
  induction x with
  | nil =>
    simp only [List.nil_append]
    rw [countBy_short f (p :: ps) (List.take ps.length y)
      (by simp only [List.length_take, List.length_cons]; omega)]
    omega
  | cons a x ih =>
    rw [List.cons_append, List.cons_append, countBy_cons, countBy_cons]
    have heq : prefB f (p :: ps) (a :: (x ++ List.take ps.length y))
        = prefB f (p :: ps) (a :: (x ++ y)) := by
      have h := prefB_append_take f (show (a :: x) ≠ [] by simp) (p :: ps) y
      simp only [List.cons_append, List.length_cons, Nat.add_sub_cancel] at h
      simpa using h
    rw [heq, ih]
    omega

theorem countBy_catSegs (f : Char → Char) (p : Char) (ps s : List Char)
    (r : List (List Char)) :
    countOccurBy f (p :: ps) (catSegs (s :: r)) =
      countOccurBy f (p :: ps) (s ++ List.take ps.length (catSegs r))
        + countOccurBy f (p :: ps) (catSegs r) := by
  simp only [catSegs]
  exact countBy_chunk f p ps s (catSegs r)

theorem countBy_le_append_left (f : Char → Char) (pat x y : List Char) :
    countOccurBy f pat x ≤ countOccurBy f pat (x ++ y) := by
  induction x with
  | nil => simp [countOccurBy]
  | cons a x ih =>
    rw [List.cons_append, countBy_cons, countBy_cons]
    have hif : (if prefB f pat (a :: x) then 1 else 0)
        ≤ (if prefB f pat (a :: (x ++ y)) then (1 : Nat) else 0) := by
      cases hpre : prefB f pat (a :: x) with
      | false => simp
      | true =>
        have h := prefB_append_left y hpre
        simp only [List.cons_append] at h
        simp [h]
    omega

theorem countBy_le_append_right (f : Char → Char) (pat x y : List Char) :
    countOccurBy f pat y ≤ countOccurBy f pat (x ++ y) := by
  induction x with
  | nil => simp
  | cons a x ih =>
    rw [List.cons_append, countBy_cons]
    omega

theorem prefB_of_append_cons {f : Char → Char} {pat y : List Char} {c : Char}
    (l : List Char) (h : prefB f pat (l ++ c :: y) = true) (hc : f c ∉ pat) :
    prefB f pat l = true := by
  induction pat generalizing l with
  | nil => simp [prefB]
  | cons p ps ih =>
    cases l with
    | nil =>
      simp only [List.nil_append, prefB, Bool.and_eq_true, beq_iff_eq] at h
      have hm : f c ∈ p :: ps := by
        rw [← h.1]
        exact List.mem_cons_self p ps
      exact absurd hm hc
    | cons a l' =>
      simp only [List.cons_append, prefB, Bool.and_eq_true] at h ⊢
      exact ⟨h.1, ih l' h.2 (fun hm => hc (List.mem_cons_of_mem p hm))⟩

theorem countBy_append_cons (f : Char → Char) {pat : List Char} {c : Char}
    (l y : List Char) (hc : f c ∉ pat) :
    countOccurBy f pat (l ++ c :: y)
      = countOccurBy f pat l + countOccurBy f pat (c :: y) := by
  induction l with
  | nil => simp [countOccurBy]
  | cons a l' ih =>
    rw [List.cons_append, countBy_cons, countBy_cons f pat a l']
    have heq : prefB f pat (a :: (l' ++ c :: y)) = prefB f pat (a :: l') := by
      cases hpre : prefB f pat (a :: (l' ++ c :: y)) with
      | true =>
        have h := prefB_of_append_cons (a :: l') (by simpa using hpre) hc
        exact h.symm
      | false =>
        cases hl : prefB f pat (a :: l') with
        | false => rfl
        | true =>
          have h := prefB_append_left (c :: y) hl
          simp only [List.cons_append] at h
          rw [hpre] at h
          cases h
    rw [heq, ih]
    omega

theorem prefB_id_decomp {pat s : List Char} (h : prefB id pat s = true) :
    s = pat ++ List.drop pat.length s := by
  induction pat generalizing s with
  | nil => simp
  | cons p ps ih =>
    cases s with
    | nil => simp [prefB] at h
    | cons c cs =>
      simp only [prefB, Bool.and_eq_true, beq_iff_eq, id] at h
      simp only [List.length_cons, List.drop_succ_cons, List.cons_append]
      rw [← ih h.2, h.1]

theorem splitFirst_spec {pat s a b : List Char}
    (h : splitFirst pat s = some (a, b)) : s = a ++ pat ++ b := by
  induction s generalizing a with
  | nil =>
    simp only [splitFirst] at h
    by_cases hp : pat.isEmpty
    · simp only [hp, if_true, Option.some.injEq, Prod.mk.injEq] at h
      rcases h with ⟨ha, hb⟩
      subst ha; subst hb
      simp [List.isEmpty_iff.mp hp]
    · simp [hp] at h
  | cons c cs ih =>
    simp only [splitFirst] at h
    cases hp : prefB id pat (c :: cs) with
    | true =>
      rw [hp] at h
      simp only [if_true, Option.some.injEq, Prod.mk.injEq] at h
      rcases h with ⟨ha, hb⟩
      subst ha; subst hb
      simpa using prefB_id_decomp hp
    | false =>
      rw [hp] at h
      simp only [Bool.false_eq_true, if_false] at h
      cases hsp : splitFirst pat cs with
      | none =>
        rw [hsp] at h
        simp at h
      | some p' =>
        obtain ⟨a', b'⟩ := p'
        rw [hsp] at h
        simp only [Option.map_some', Option.some.injEq, Prod.mk.injEq] at h
        rcases h with ⟨ha, hb⟩
        subst hb
        rw [← ha]
        simpa using congrArg (c :: ·) (ih hsp)

theorem splitFirst_append {pat : List Char} {y a b : List Char} (x : List Char)
    (hx : countOccurBy id pat (x ++ List.take (pat.length - 1) y) = 0)
    (hy : splitFirst pat y = some (a, b)) :
    splitFirst pat (x ++ y) = some (x ++ a, b) := by
  induction x with
  | nil => simpa using hy
  | cons c x' ih =>
    rw [List.cons_append]
    simp only [splitFirst]
    have hpre : prefB id pat (c :: (x' ++ y)) = false := by
      cases hp : prefB id pat (c :: (x' ++ y)) with
      | false => rfl
      | true =>
        have h2 : prefB id pat (c :: (x' ++ List.take (pat.length - 1) y)) = true := by
          have h3 := prefB_append_take id (show (c :: x') ≠ [] by simp) pat y
          simp only [List.cons_append] at h3
          rw [h3]
          exact hp
        rw [List.cons_append, countBy_cons, h2] at hx
        simp at hx
    rw [hpre]
    simp only [Bool.false_eq_true, if_false]
    have hx' : countOccurBy id pat (x' ++ List.take (pat.length - 1) y) = 0 := by
      rw [List.cons_append, countBy_cons] at hx
      omega
    rw [ih hx']
    simp

theorem tagTestB_append_right {tag y : List Char} (x : List Char)
    (h : tagTestB tag y = true) : tagTestB tag (x ++ y) = true := by
  induction x with
  | nil => simpa using h
  | cons c x' ih =>
    rw [List.cons_append]
    simp only [tagTestB, Bool.or_eq_true]
    exact Or.inr ih

theorem tagTestB_append_left {tag x : List Char} (y : List Char)
    (h : tagTestB tag x = true) : tagTestB tag (x ++ y) = true := by
  induction x with
  | nil => simp [tagTestB] at h
  | cons c x' ih =>
    simp only [tagTestB, Bool.or_eq_true, Bool.and_eq_true] at h
    rw [List.cons_append]
    simp only [tagTestB, Bool.or_eq_true, Bool.and_eq_true]
    rcases h with ⟨hpre, hgt⟩ | htail
    · left
      constructor
      · have := prefB_append_left y hpre
        simpa using this
      · have hlen : tag.length ≤ (c :: x').length := prefB_length_le hpre
        have hshape : c :: (x' ++ y) = (c :: x') ++ y := by simp
        rw [hshape, List.drop_append_of_le_length hlen]
        rcases List.contains_iff_exists_mem_beq.mp hgt with ⟨a, ha, hbeq⟩
        exact List.contains_iff_exists_mem_beq.mpr ⟨a, List.mem_append_left y ha, hbeq⟩
    · right
      exact ih htail

theorem splitFirstCI_spec {pat s a sl r : List Char}
    (h : splitFirstCI pat s = some (a, sl, r)) : s = a ++ sl ++ r := by
  induction s generalizing a sl r with
  | nil => simp [splitFirstCI] at h
  | cons c cs ih =>
    simp only [splitFirstCI] at h
    cases hp : prefB Char.toLower pat (c :: cs) with
    | true =>
      rw [hp] at h
      simp only [if_true, Option.some.injEq, Prod.mk.injEq] at h
      rcases h with ⟨ha, hsl, hr⟩
      subst ha; subst hsl; subst hr
      simp
    | false =>
      rw [hp] at h
      simp only [Bool.false_eq_true, if_false] at h
      cases hsp : splitFirstCI pat cs with
      | none =>
        rw [hsp] at h
        simp at h
      | some p' =>
        obtain ⟨a', sl', r'⟩ := p'
        rw [hsp] at h
        simp only [Option.map_some', Option.some.injEq, Prod.mk.injEq] at h
        rcases h with ⟨ha, hsl, hr⟩
        subst hsl; subst hr
        rw [← ha]
        simpa using congrArg (c :: ·) (ih hsp)

theorem splitFirstCI_length {pat s a sl r : List Char}
    (h : splitFirstCI pat s = some (a, sl, r)) : sl.length ≤ pat.length := by
  induction s generalizing a sl r with
  | nil => simp [splitFirstCI] at h
  | cons c cs ih =>
    simp only [splitFirstCI] at h
    cases hp : prefB Char.toLower pat (c :: cs) with
    | true =>
      rw [hp] at h
      simp only [if_true, Option.some.injEq, Prod.mk.injEq] at h
      rcases h with ⟨_, hsl, _⟩
      subst hsl
      simp
    | false =>
      rw [hp] at h
      simp only [Bool.false_eq_true, if_false] at h
      cases hsp : splitFirstCI pat cs with
      | none =>
        rw [hsp] at h
        simp at h
      | some p' =>
        obtain ⟨a', sl', r'⟩ := p'
        rw [hsp] at h
        simp only [Option.map_some', Option.some.injEq, Prod.mk.injEq] at h
        rcases h with ⟨_, hsl, _⟩
        subst hsl
        exact ih hsp

theorem renderAux_id_of_no_ci {s : List Char} (fuel : Nat)
    (h : countOccurBy Char.toLower preCodeOpen s = 0) : renderAux fuel s = s := by
  induction fuel generalizing s with
  | zero => rfl
  | succ fuel ih =>
    cases s with
    | nil => rfl
    | cons c cs =>
      rw [countBy_cons] at h
      have hpre : prefB Char.toLower preCodeOpen (c :: cs) = false := by
        cases hp : prefB Char.toLower preCodeOpen (c :: cs) with
        | false => rfl
        | true =>
          rw [hp] at h
          simp at h
      have hcs : countOccurBy Char.toLower preCodeOpen cs = 0 := by omega
      simp only [renderAux, hpre, Bool.false_eq_true, if_false]
      rw [ih hcs]

theorem hasRenderableAux_renderAux_id {s : List Char} (fuel : Nat)
    (h : hasRenderableAux fuel s = false) : renderAux fuel s = s := by
  induction fuel generalizing s with
  | zero => rfl
  | succ fuel ih =>
    cases s with
    | nil => rfl
    | cons c cs =>
      cases hpre : prefB Char.toLower preCodeOpen (c :: cs) with
      | false =>
        simp only [hasRenderableAux, hpre, Bool.false_eq_true, if_false] at h
        simp only [renderAux, hpre, Bool.false_eq_true, if_false]
        rw [ih h]
      | true =>
        cases hsp : splitFirstCI codeCloseTag (List.drop preCodeOpen.length (c :: cs)) with
        | none =>
          simp only [hasRenderableAux, hpre, if_true, hsp] at h
          simp only [renderAux, hpre, if_true, hsp]
          rw [ih h]
        | some p' =>
          obtain ⟨content, closeSlice, rest⟩ := p'
          simp only [hasRenderableAux, hpre, if_true, hsp, Bool.or_eq_false_iff] at h
          simp only [renderAux, hpre, if_true, hsp]
          rw [h.1]
          simp only [Bool.false_eq_true, if_false, List.append_nil]
          rw [ih h.2]
          have hdec := splitFirstCI_spec hsp
          calc List.take preCodeOpen.length (c :: cs) ++ content ++ closeSlice ++ rest
              = List.take preCodeOpen.length (c :: cs)
                  ++ List.drop preCodeOpen.length (c :: cs) := by
                rw [hdec]
                simp
            _ = c :: cs := List.take_append_drop _ _

theorem renderAux_sublist (fuel : Nat) (s : List Char) : List.Sublist s (renderAux fuel s) := by
  induction fuel generalizing s with
  | zero => exact List.Sublist.refl s
  | succ fuel ih =>
    cases s with
    | nil => simp [renderAux]
    | cons c cs =>
      cases hpre : prefB Char.toLower preCodeOpen (c :: cs) with
      | false =>
        simp only [renderAux, hpre, Bool.false_eq_true, if_false]
        exact (ih cs).cons₂ c
      | true =>
        cases hsp : splitFirstCI codeCloseTag (List.drop preCodeOpen.length (c :: cs)) with
        | none =>
          simp only [renderAux, hpre, if_true, hsp]
          exact (ih cs).cons₂ c
        | some p' =>
          obtain ⟨content, closeSlice, rest⟩ := p'
          simp only [renderAux, hpre, if_true, hsp]
          have hdec := splitFirstCI_spec hsp
          have hs : c :: cs
              = List.take preCodeOpen.length (c :: cs) ++ (content ++ closeSlice ++ rest) := by
            rw [← hdec, List.take_append_drop]
          conv_lhs => rw [hs]
          cases hb : content.contains '<' && content.contains '>' with
          | false =>
            simp only [hb, Bool.false_eq_true, if_false, List.append_nil]
            simp only [List.append_assoc]
            refine List.Sublist.append_left ?_ _
            refine List.Sublist.append_left ?_ _
            refine List.Sublist.append_left ?_ _
            exact ih rest
          | true =>
            simp only [hb, if_true]
            simp only [List.append_assoc]
            refine List.Sublist.append_left ?_ _
            refine List.Sublist.append_left ?_ _
            refine List.Sublist.append_left ?_ _
            exact List.Sublist.trans (ih rest) (List.sublist_append_right _ _)

theorem renderAux_ne_nil {s : List Char} (fuel : Nat) (h : s ≠ []) :
    renderAux fuel s ≠ [] := by
  have := renderAux_sublist fuel s
  intro hnil
  rw [hnil] at this
  exact h (List.sublist_nil.mp this)

theorem pageLoop_eq (fuel : Nat) (h : Int) (p : Int) (hp : 0 < p)
    (hfuel : h < fuel) :
    pageLoop fuel h p = if 0 ≤ h then (h / p).toNat + 1 else 0 := by
  induction fuel generalizing h with
  | zero =>
    have : ¬ (0 : Int) ≤ h := by
      intro hh
      simp only [Nat.cast_zero] at hfuel
      omega
    simp [pageLoop, this]
  | succ fuel ih =>
    simp only [pageLoop]
    by_cases hh : (0 : Int) ≤ h
    · rw [if_pos hh, if_pos hh]
      have hrec : pageLoop fuel (h - p) p
          = if 0 ≤ h - p then ((h - p) / p).toNat + 1 else 0 := by
        apply ih
        push_cast at hfuel ⊢
        omega
      rw [hrec]
      by_cases hh2 : (0 : Int) ≤ h - p
      · rw [if_pos hh2]
        have hdiv : (h - p) / p = h / p - 1 := by
          have := Int.add_mul_ediv_right h (-1) (Int.ne_of_gt hp)
          simpa [sub_eq_add_neg] using this
        rw [hdiv]
        have hge : 1 ≤ h / p := by
          rw [Int.le_ediv_iff_mul_le hp]
          omega
        omega
      · rw [if_neg hh2]
        have hlt : h < p := by omega
        rw [Int.ediv_eq_zero_of_lt hh hlt]
        simp
    · rw [if_neg hh, if_neg hh]

theorem numPages_formula (imgHeight pageHeight : Nat) (hp : 0 < pageHeight) :
    numPages imgHeight pageHeight = imgHeight / pageHeight + 1 := by
  unfold numPages
  have hp' : (0 : Int) < (pageHeight : Int) := by exact_mod_cast hp
  rw [pageLoop_eq (imgHeight + 1) ((imgHeight : Int) - pageHeight) pageHeight hp'
    (by push_cast; omega)]
  by_cases hle : pageHeight ≤ imgHeight
  · have h0 : (0 : Int) ≤ (imgHeight : Int) - pageHeight := by omega
    rw [if_pos h0]
    have hdiv : ((imgHeight : Int) - pageHeight) / pageHeight
        = (imgHeight : Int) / pageHeight - 1 := by
      have h2 := Int.add_mul_ediv_right (imgHeight : Int) (-1) (Int.ne_of_gt hp')
      simpa [sub_eq_add_neg] using h2
    rw [hdiv]
    have hcast : ((imgHeight : Int) / pageHeight) = ((imgHeight / pageHeight : Nat) : Int) :=
      (Int.ofNat_ediv imgHeight pageHeight).symm
    rw [hcast]
    have hge : 1 ≤ imgHeight / pageHeight := (Nat.one_le_div_iff hp).mpr hle
    omega
  · have h0 : ¬ (0 : Int) ≤ (imgHeight : Int) - pageHeight := by omega
    rw [if_neg h0]
    have hz : imgHeight / pageHeight = 0 := Nat.div_eq_of_lt (by omega)
    omega

theorem head_append_ne_nil {x : List Char} (hx : x ≠ []) (y : List Char) :
    x ++ y ≠ [] := by
  cases x with
  | nil => exact absurd rfl hx
  | cons c cs => simp

theorem mid_append_ne_nil {rep : List Char} (hrep : rep ≠ []) (a b : List Char) :
    a ++ rep ++ b ≠ [] := by
  intro h
  rcases List.append_eq_nil.mp h with ⟨h1, _⟩
  rcases List.append_eq_nil.mp h1 with ⟨_, h2⟩
  exact hrep h2

theorem generateCSS_ne_nil (config : Config) : generateCSS config ≠ [] := by
  simp only [generateCSS, List.append_assoc]
  exact head_append_ne_nil (by decide) _

theorem replaceFirst_ne_nil {s rep : List Char} (pat : List Char) (hs : s ≠ [])
    (hrep : rep ≠ []) : replaceFirst s pat rep ≠ [] := by
  unfold replaceFirst
  cases hsp : splitFirst pat s with
  | none => exact hs
  | some p =>
    obtain ⟨a, b⟩ := p
    exact mid_append_ne_nil hrep a b

theorem wrapDocument_ne_nil (config : Config) (s : List Char) :
    wrapDocument config s ≠ [] := by
  simp only [wrapDocument, List.append_assoc]
  exact head_append_ne_nil (by decide) _

theorem detectComplete_nil : detectComplete [] = false := by decide

theorem shellStep_ne_nil (config : Config) (s : List Char) :
    shellStep config s ≠ [] := by
  unfold shellStep
  by_cases hdet : detectComplete s = true
  · rw [if_pos hdet]
    apply replaceFirst_ne_nil
    · intro hnil
      rw [hnil] at hdet
      rw [detectComplete_nil] at hdet
      cases hdet
    · exact head_append_ne_nil (generateCSS_ne_nil config) _
  · rw [if_neg hdet]
    exact wrapDocument_ne_nil config s

/-! ## The claims -/

/-- Claim C1: the specification demands that the browser-path pagination
loop of `generatePDFFromHTML` produce exactly `ceil(H / P)` pages with no
extra blank trailing page when `H` is an exact multiple of `P`.  The code
in fact produces `H / P + 1` pages (floor division plus the page added
before the loop), because the loop keeps running while `heightLeft >= 0`:
at `H = P = 10` it emits `2` pages where `ceil(10 / 10) = 1`, i.e. one
extra blank trailing page.  This theorem records the code's actual page
count, the failing input, and the value the specification demands there. -/
theorem c1_pagination_extra_blank_page :
    (∀ imgHeight pageHeight : Nat, 0 < pageHeight →
        numPages imgHeight pageHeight = imgHeight / pageHeight + 1)
      ∧ numPages 10 10 = 2 ∧ ceilPages 10 10 = 1 := by
  refine ⟨numPages_formula, by decide, by decide⟩

/-- Witness for C1's theorem at a concrete input: at `H = 25`, `P = 10` the
loop produces `25 / 10 + 1 = 3 = ceil(25/10)` pages (the non-multiple case
agrees with the specification). -/
theorem c1_pagination_extra_blank_page_witness :
    numPages 25 10 = 25 / 10 + 1 :=
  c1_pagination_extra_blank_page.1 25 10 (by decide)

/-- Claim C9: `convertHTMLToPDF` fails with an input error whenever
`htmlContent` or `outputPath` is empty, and the failure occurs before the
headless browser is launched (in this embedding, `inputError` is returned
without constructing the `conversion` state that models the launched
browser session); in particular `convertHTMLToPDF('', 'out.pdf')` yields
the input error. -/
theorem c9_input_validation :
    (∀ (outputPath : List Char) (options : ConvertOptions),
        convertHTMLToPDF [] outputPath options
          = ConvertOutcome.inputError "htmlContent must be a non-empty string")
      ∧ (∀ (htmlContent : List Char) (options : ConvertOptions), htmlContent ≠ [] →
          convertHTMLToPDF htmlContent [] options
            = ConvertOutcome.inputError "outputPath must be a non-empty string")
      ∧ convertHTMLToPDF [] "out.pdf".data noOptions
          = ConvertOutcome.inputError "htmlContent must be a non-empty string" := by
  refine ⟨?_, ?_, rfl⟩
  · intro outputPath options
    rfl
  · intro htmlContent options hne
    cases htmlContent with
    | nil => exact absurd rfl hne
    | cons c cs => rfl

/-- Witness for C9's theorem: a non-empty `htmlContent` with an empty
`outputPath` is rejected with the output-path input error. -/
theorem c9_input_validation_witness :
    convertHTMLToPDF "x".data [] noOptions
      = ConvertOutcome.inputError "outputPath must be a non-empty string" :=
  c9_input_validation.2.1 "x".data noOptions (by decide)

/-- Claim C6: on the concrete input
`<div class="content"><div style="margin:auto">X</div></div>`,
`fixCenteringIssues` returns exactly `<div style="margin:auto">X</div>`:
the `class="content"` pattern matches the whole input and is replaced by
its capture group, and the general pattern then finds no further match. -/
theorem c6_centering_example :
    fixCenteringIssues "<div class=\"content\"><div style=\"margin:auto\">X</div></div>".data
      = "<div style=\"margin:auto\">X</div>".data := by decide

/-- Claim C7: the specification (and the function's own doc-comment
example) says `<pre><code>&lt;h1&gt;Hi&lt;/h1&gt;</code></pre>` receives an
appended "Rendered HTML Preview" block.  The headless-path
`renderHTMLCodeBlocks` in fact leaves this input completely unchanged: the
matched code content is the entity-escaped text `&lt;h1&gt;Hi&lt;/h1&gt;`,
which contains no literal `<` or `>` character, so the angle-bracket
heuristic rejects it and no preview is emitted. -/
theorem c7_escaped_code_block_not_rendered :
    renderHTMLCodeBlocks "<pre><code>&lt;h1&gt;Hi&lt;/h1&gt;</code></pre>".data
      = "<pre><code>&lt;h1&gt;Hi&lt;/h1&gt;</code></pre>".data
    ∧ countOccur "Rendered HTML Preview".data
        (renderHTMLCodeBlocks "<pre><code>&lt;h1&gt;Hi&lt;/h1&gt;</code></pre>".data) = 0 := by
  exact ⟨by decide, by decide⟩

/-- Claim C5 counterexample: a container div that carries its own
non-trivial style attribute (`style="padding:50px"`) but also the class
`content` IS removed by `fixCenteringIssues` — the `class="content"`
pattern replaces the wrapper by its captured child without any check of the
wrapper's own style, contradicting the claim that such containers are
never removed. -/
theorem c5_styled_content_wrapper_removed :
    fixCenteringIssues
        "<div class=\"content\" style=\"padding:50px\"><div style=\"margin:auto\">X</div></div>".data
      = "<div style=\"margin:auto\">X</div>".data := by decide

/-- Claim C5 as amended: the style-emptiness check guards only the general
wrapper pattern — its callback keeps the container whenever the wrapper's
styling is not minimal (first conjunct, universally), and a plain styled
wrapper is indeed left untouched (second conjunct) — while a container
with `class="content"` is replaced by its auto-margin child regardless of
its own style attribute (third conjunct). -/
theorem c5_amended_style_check_only_general :
    (∀ m g : List Char,
        hasMinimalStylingB (stripTrailDiv (replaceFirst m g [])) = false →
          generalCallback m g = m)
      ∧ fixCenteringIssues
          "<div style=\"padding:50px\"><div style=\"margin:auto\">X</div></div>".data
        = "<div style=\"padding:50px\"><div style=\"margin:auto\">X</div></div>".data
      ∧ fixCenteringIssues
          "<div class=\"content\" style=\"color:red\"><div style=\"margin:auto\">Y</div></div>".data
        = "<div style=\"margin:auto\">Y</div>".data := by
  refine ⟨?_, by decide, by decide⟩
  intro m g hmin
  simp [generalCallback, hmin]

/-- Witness for C5's amended theorem: the general callback keeps the
concrete styled wrapper match of the second conjunct's input. -/
theorem c5_amended_witness :
    generalCallback
        "<div style=\"padding:50px\"><div style=\"margin:auto\">X</div></div>".data
        "<div style=\"margin:auto\">X</div>".data
      = "<div style=\"padding:50px\"><div style=\"margin:auto\">X</div></div>".data :=
  c5_amended_style_check_only_general.1 _ _ (by decide)

/-- Claim C8: the code-block rendering step is strictly additive — every
input is a sublist of its output (the output is the input with previews
inserted after matched spans, so the original text survives in order), and
an input none of whose `<pre><code>…</code></pre>` blocks passes the
angle-bracket heuristic is returned completely unchanged. -/
theorem c8_code_blocks_additive :
    (∀ s : List Char, List.Sublist s (renderHTMLCodeBlocks s))
      ∧ ∀ s : List Char, hasRenderableBlock s = false → renderHTMLCodeBlocks s = s := by
  constructor
  · intro s
    exact renderAux_sublist s.length s
  · intro s h
    exact hasRenderableAux_renderAux_id s.length h

/-- Witness for C8's theorem: a code block without angle brackets passes
through unchanged. -/
theorem c8_code_blocks_additive_witness :
    hasRenderableBlock "<pre><code>plain text</code></pre>".data = false
    ∧ renderHTMLCodeBlocks "<pre><code>plain text</code></pre>".data
      = "<pre><code>plain text</code></pre>".data :=
  ⟨by decide, c8_code_blocks_additive.2 _ (by decide)⟩

/-- Claim C10 (implicit): the headless-path code-block regex only matches
the literal attribute-free tag sequence `<pre><code>` (case-insensitively).
Any input with no case-insensitive occurrence of that literal — in
particular one whose `<pre>` or `<code>` tags carry attributes — is
returned byte-for-byte unchanged, even with `renderCodeBlocks` enabled and
angle brackets in the content. -/
theorem c10_attributed_blocks_unchanged :
    ∀ s : List Char, countOccurBy Char.toLower preCodeOpen s = 0 →
      renderHTMLCodeBlocks s = s :=
  fun s h => renderAux_id_of_no_ci s.length h

/-- Claim C4: `processHTMLContent` is a total function of its two
arguments — in this embedding it is a total Lean function, and the source
path it models (two regex replaces, three regex tests, a string replace
and a template splice) has no failing operation — and it always returns a
non-empty string.  A partial document (one the shell detection does not
recognise as complete) is wrapped in the full document shell rather than
rejected: the processed output is exactly the wrap path, and the
(centering-fixed) input is embedded verbatim as an infix of the wrapped
document body. -/
theorem c4_process_total_wraps_fragments :
    ∀ (htmlContent : List Char) (config : Config),
      processHTMLContent htmlContent config ≠ []
      ∧ (detectComplete (fixCenteringIssues htmlContent) = false →
          processHTMLContent htmlContent config
            = wrapPath config (fixCenteringIssues htmlContent)
          ∧ List.IsInfix (fixCenteringIssues htmlContent)
              (wrapDocument config (fixCenteringIssues htmlContent))) := by
  intro htmlContent config
  constructor
  · unfold processHTMLContent
    by_cases hr : config.renderCodeBlocks = true
    · rw [if_pos hr]
      exact renderAux_ne_nil _ (shellStep_ne_nil config _)
    · rw [if_neg hr]
      exact shellStep_ne_nil config _
  · intro hdet
    have hshell : shellStep config (fixCenteringIssues htmlContent)
        = wrapDocument config (fixCenteringIssues htmlContent) := by
      unfold shellStep
      rw [if_neg (by rw [hdet]; simp)]
    constructor
    · unfold processHTMLContent wrapPath
      rw [hshell]
    · exact ⟨wrapSegA.data ++ generateCSS config ++ wrapSegB.data, wrapSegC.data,
        by simp [wrapDocument, List.append_assoc]⟩

/-- Witness for C4's theorem: the fragment `hi` is not detected as a
complete document and is wrapped, not rejected. -/
theorem c4_process_total_wraps_fragments_witness :
    detectComplete (fixCenteringIssues "hi".data) = false
    ∧ processHTMLContent "hi".data defaultConfig
      = wrapPath defaultConfig (fixCenteringIssues "hi".data) :=
  ⟨by decide, ((c4_process_total_wraps_fragments "hi".data defaultConfig).2 (by decide)).1⟩

theorem generateCSS_default_catSegs :
    generateCSS defaultConfig = catSegs cssDefaultSegs := by
  simp [generateCSS, defaultConfig, fontImport, serifFamily, cssDefaultSegs, catSegs,
    List.append_assoc]

theorem countCss_style : countOccurBy id styleOpen (generateCSS defaultConfig) = 1 := by
  rw [generateCSS_default_catSegs]
  simp only [cssDefaultSegs, styleOpen]
  simp only [countBy_catSegs]
  decide

theorem countCss_preCodeCI :
    countOccurBy Char.toLower preCodeOpen (generateCSS defaultConfig) = 0 := by
  rw [generateCSS_default_catSegs]
  simp only [cssDefaultSegs, preCodeOpen]
  simp only [countBy_catSegs]
  decide

theorem countBy_chunk' (f : Char → Char) {pat : List Char} (hpat : pat ≠ [])
    (x y : List Char) :
    countOccurBy f pat (x ++ y)
      = countOccurBy f pat (x ++ List.take (pat.length - 1) y) + countOccurBy f pat y := by
  cases pat with
  | nil => exact absurd rfl hpat
  | cons p ps => simpa using countBy_chunk f p ps x y

theorem prefB_cons_false {f : Char → Char} {pat : List Char} {c : Char} (p : Char)
    (l : List Char) (hp : pat.head? = some p) (h : (p == f c) = false) :
    prefB f pat (c :: l) = false := by
  cases pat with
  | nil => simp at hp
  | cons q ps =>
    simp only [List.head?_cons, Option.some.injEq] at hp
    subst hp
    simp [prefB, h]

theorem replaceFirst_eq_of_splitFirst {s pat rep a b : List Char}
    (h : splitFirst pat s = some (a, b)) : replaceFirst s pat rep = a ++ rep ++ b := by
  unfold replaceFirst
  rw [h]

/-- Claim C3 counterexample: the input `<html><head><body>x</body></html>`
is non-empty, carries `<html>`, `<head>` and `<body>` opening tags (so the
complete-document branch is taken), yet the processed output contains ZERO
generated style blocks — the splice targets the literal `</head>`, which
this input lacks, and `String.replace` then returns the document
unchanged.  The claim demands exactly one, never zero. -/
theorem c3_detected_doc_without_headClose_gets_no_style :
    detectComplete "<html><head><body>x</body></html>".data = true
    ∧ countOccur styleOpen
        (processHTMLContent "<html><head><body>x</body></html>".data defaultConfig) = 0 :=
  ⟨by decide, by decide⟩

/-- Claim C3 as amended: for default settings, an input that the
wrapper-fix leaves unchanged, that is detected as a complete document,
whose first `</head>` splits it as `a ++ "</head>" ++ b`, and that contains
no `<style` substring and no (case-insensitive) `<pre><code>` block, is
processed to exactly `a ++ generateCSS ++ "\n</head>" ++ b` — the
generated style block is spliced immediately before the first `</head>` —
and the output contains exactly one `<style` occurrence.  (The
counterexample forces the extra proviso: a detected-complete input with no
literal lowercase `</head>` receives zero style blocks.) -/
theorem c3_amended_style_spliced_before_headClose :
    ∀ (s a b : List Char),
      fixCenteringIssues s = s →
      detectComplete s = true →
      splitFirst headClose s = some (a, b) →
      countOccurBy id styleOpen s = 0 →
      countOccurBy Char.toLower preCodeOpen s = 0 →
      processHTMLContent s defaultConfig
          = a ++ (generateCSS defaultConfig ++ ('\n' :: headClose)) ++ b
        ∧ countOccurBy id styleOpen (processHTMLContent s defaultConfig) = 1 := by
  intro s a b hfix hdet hsplit hnostyle hnopre
  have hs : s = a ++ headClose ++ b := splitFirst_spec hsplit
  have hnostyleA : countOccurBy id styleOpen a = 0 := by
    have hle := countBy_le_append_left id styleOpen a (headClose ++ b)
    rw [← List.append_assoc, ← hs] at hle
    omega
  have hnostyleHB : countOccurBy id styleOpen (headClose ++ b) = 0 := by
    have hle := countBy_le_append_right id styleOpen a (headClose ++ b)
    rw [← List.append_assoc, ← hs] at hle
    omega
  have hnopreA : countOccurBy Char.toLower preCodeOpen a = 0 := by
    have hle := countBy_le_append_left Char.toLower preCodeOpen a (headClose ++ b)
    rw [← List.append_assoc, ← hs] at hle
    omega
  have hnopreHB : countOccurBy Char.toLower preCodeOpen (headClose ++ b) = 0 := by
    have hle := countBy_le_append_right Char.toLower preCodeOpen a (headClose ++ b)
    rw [← List.append_assoc, ← hs] at hle
    omega
  have hout : processHTMLContent s defaultConfig
      = renderHTMLCodeBlocks
          (a ++ (generateCSS defaultConfig ++ ('\n' :: headClose)) ++ b) := by
    unfold processHTMLContent
    rw [if_pos (show defaultConfig.renderCodeBlocks = true from rfl), hfix]
    unfold shellStep
    rw [if_pos hdet, replaceFirst_eq_of_splitFirst hsplit]
  have hT : a ++ (generateCSS defaultConfig ++ ('\n' :: headClose)) ++ b
      = a ++ (generateCSS defaultConfig ++ ('\n' :: (headClose ++ b))) := by
    simp [List.append_assoc]
  have hcssA : generateCSS defaultConfig ++ ('\n' :: (headClose ++ b))
      = cssSegA.data
        ++ (catSegs cssDefaultSegs.tail ++ ('\n' :: (headClose ++ b))) := by
    rw [generateCSS_default_catSegs]
    simp [cssDefaultSegs, catSegs, List.append_assoc]
  have htake5 : List.take (styleOpen.length - 1)
      (generateCSS defaultConfig ++ ('\n' :: (headClose ++ b)))
      = List.take (styleOpen.length - 1) cssSegA.data := by
    rw [hcssA]
    exact List.take_append_of_le_length (by decide)
  have htake10 : List.take (preCodeOpen.length - 1)
      (generateCSS defaultConfig ++ ('\n' :: (headClose ++ b)))
      = List.take (preCodeOpen.length - 1) cssSegA.data := by
    rw [hcssA]
    exact List.take_append_of_le_length (by decide)
  have hciT : countOccurBy Char.toLower preCodeOpen
      (a ++ (generateCSS defaultConfig ++ ('\n' :: (headClose ++ b)))) = 0 := by
    rw [countBy_chunk' Char.toLower (by decide) a _, htake10]
    have h1 : countOccurBy Char.toLower preCodeOpen
        (a ++ List.take (preCodeOpen.length - 1) cssSegA.data) = 0 := by
      have h4 : List.take (preCodeOpen.length - 1) cssSegA.data
          = '\n' :: "    <styl".data := by decide
      rw [h4, countBy_append_cons Char.toLower a _ (by decide), hnopreA]
      decide
    rw [h1]
    rw [countBy_append_cons Char.toLower _ _ (by decide), countCss_preCodeCI]
    have h3 : countOccurBy Char.toLower preCodeOpen ('\n' :: (headClose ++ b))
        = countOccurBy Char.toLower preCodeOpen (headClose ++ b) := by
      rw [countBy_cons, prefB_cons_false '<' _ (by decide) (by decide)]
      simp
    rw [h3, hnopreHB]
  have hstyleT : countOccurBy id styleOpen
      (a ++ (generateCSS defaultConfig ++ ('\n' :: (headClose ++ b)))) = 1 := by
    rw [countBy_chunk' id (by decide) a _, htake5]
    have h1 : countOccurBy id styleOpen
        (a ++ List.take (styleOpen.length - 1) cssSegA.data) = 0 := by
      have h4 : List.take (styleOpen.length - 1) cssSegA.data
          = '\n' :: "    ".data := by decide
      rw [h4, countBy_append_cons id a _ (by decide), hnostyleA]
      decide
    rw [h1]
    rw [countBy_append_cons id _ _ (by decide), countCss_style]
    have h3 : countOccurBy id styleOpen ('\n' :: (headClose ++ b))
        = countOccurBy id styleOpen (headClose ++ b) := by
      rw [countBy_cons, prefB_cons_false '<' _ (by decide) (by decide)]
      simp
    rw [h3, hnostyleHB]
  have hfinal : processHTMLContent s defaultConfig
      = a ++ (generateCSS defaultConfig ++ ('\n' :: headClose)) ++ b := by
    rw [hout]
    unfold renderHTMLCodeBlocks
    conv_lhs => rw [hT]
    rw [renderAux_id_of_no_ci _ hciT]
    exact hT.symm
  refine ⟨hfinal, ?_⟩
  rw [hfinal, hT]
  exact hstyleT

/-- Witness for C3's amended theorem: a complete document with a literal
`</head>` gets exactly one injected style block. -/
theorem c3_amended_witness :
    countOccurBy id styleOpen
        (processHTMLContent "<html><head></head><body>hi</body></html>".data
          defaultConfig) = 1 :=
  (c3_amended_style_spliced_before_headClose
      "<html><head></head><body>hi</body></html>".data
      "<html><head>".data "<body>hi</body></html>".data
      (by decide) (by decide) (by decide) (by decide) (by decide)).2

theorem shellStep_X :
    shellStep defaultConfig "X".data = wrapDocument defaultConfig "X".data := by
  unfold shellStep
  rw [if_neg (by decide)]

theorem detect_wrapped_X :
    detectComplete (wrapDocument defaultConfig "X".data) = true := by
  unfold detectComplete wrapDocument
  simp only [List.append_assoc]
  rw [Bool.and_eq_true, Bool.and_eq_true]
  refine ⟨⟨?_, ?_⟩, ?_⟩
  · exact tagTestB_append_left _ (by decide)
  · exact tagTestB_append_left _ (by decide)
  · exact tagTestB_append_right _ (tagTestB_append_right _ (tagTestB_append_left _ (by decide)))

theorem split_wrapped_X :
    splitFirst headClose (wrapDocument defaultConfig "X".data)
      = some (wrapSegA.data ++ (generateCSS defaultConfig ++ ['\n']),
          "\n<body>\n    ".data ++ ("X".data ++ wrapSegC.data)) := by
  have hB : wrapSegB.data = '\n' :: (headClose ++ "\n<body>\n    ".data) := by decide
  have hw : wrapDocument defaultConfig "X".data
      = (wrapSegA.data ++ (generateCSS defaultConfig ++ ['\n']))
        ++ (headClose ++ ("\n<body>\n    ".data ++ ("X".data ++ wrapSegC.data))) := by
    unfold wrapDocument
    rw [hB]
    simp [List.append_assoc]
  rw [hw]
  have hy : splitFirst headClose
      (headClose ++ ("\n<body>\n    ".data ++ ("X".data ++ wrapSegC.data)))
      = some ([], "\n<body>\n    ".data ++ ("X".data ++ wrapSegC.data)) := by decide
  have hx : countOccurBy id headClose
      ((wrapSegA.data ++ (generateCSS defaultConfig ++ ['\n']))
        ++ List.take (headClose.length - 1)
            (headClose ++ ("\n<body>\n    ".data ++ ("X".data ++ wrapSegC.data)))) = 0 := by
    have htk : List.take (headClose.length - 1)
        (headClose ++ ("\n<body>\n    ".data ++ ("X".data ++ wrapSegC.data)))
        = "</head".data := by decide
    rw [htk]
    have hcat : (wrapSegA.data ++ (generateCSS defaultConfig ++ ['\n'])) ++ "</head".data
        = catSegs ([wrapSegA.data] ++ cssDefaultSegs ++ [('\n' :: "</head".data)]) := by
      rw [generateCSS_default_catSegs]
      simp [cssDefaultSegs, catSegs, List.append_assoc]
    rw [hcat]
    simp only [cssDefaultSegs, List.cons_append, List.nil_append, headClose]
    simp only [countBy_catSegs]
    decide
  have h := splitFirst_append (wrapSegA.data ++ (generateCSS defaultConfig ++ ['\n'])) hx hy
  simpa using h

theorem secondPass_eq :
    shellStep defaultConfig (shellStep defaultConfig "X".data) = catSegs wrappedTwiceSegs := by
  rw [shellStep_X]
  unfold shellStep
  rw [if_pos detect_wrapped_X, replaceFirst_eq_of_splitFirst split_wrapped_X]
  rw [generateCSS_default_catSegs]
  simp [wrappedTwiceSegs, cssDefaultSegs, catSegs, List.append_assoc]

theorem secondPass_styleCount :
    countOccurBy id styleOpen (shellStep defaultConfig (shellStep defaultConfig "X".data)) = 2 := by
  rw [secondPass_eq]
  simp only [wrappedTwiceSegs, cssDefaultSegs, List.cons_append, List.nil_append,
    List.append_nil, styleOpen]
  simp only [countBy_catSegs]
  decide

theorem secondPass_htmlCount :
    countOccurBy id htmlOpen (shellStep defaultConfig (shellStep defaultConfig "X".data)) = 1 := by
  rw [secondPass_eq]
  simp only [wrappedTwiceSegs, cssDefaultSegs, List.cons_append, List.nil_append,
    List.append_nil, htmlOpen]
  simp only [countBy_catSegs]
  decide

/-- Claim C2 counterexample: the claim says re-running the shell-detection
and style-injection step on already-wrapped output yields exactly one
injected style block.  On the wrapped output of input `X` (an output of
the step, containing `<html>`, `<head>`, `<body>` and one injected style
block), the second pass detects the shell but unconditionally splices a
second CSS block before the first `</head>`: the result contains TWO
`<style` occurrences. -/
theorem c2_second_pass_duplicates_style_block :
    countOccur styleOpen (shellStep defaultConfig (shellStep defaultConfig "X".data)) = 2 :=
  secondPass_styleCount

/-- Claim C2 as amended: re-running the step on already-wrapped output
correctly detects the existing shell and so does not wrap again — the
twice-processed output has exactly one `<html` root — but style injection
has no idempotence guard, so the output carries two injected style blocks
(one per pass), not one. -/
theorem c2_amended_second_pass_one_root_two_styles :
    countOccur htmlOpen (shellStep defaultConfig (shellStep defaultConfig "X".data)) = 1
    ∧ countOccur styleOpen (shellStep defaultConfig (shellStep defaultConfig "X".data)) = 2 :=
  ⟨secondPass_htmlCount, secondPass_styleCount⟩

/-- Witness for C10's theorem: a `<pre class="x"><code>` block whose
content contains both angle brackets is still left unchanged. -/
theorem c10_attributed_blocks_unchanged_witness :
    countOccurBy Char.toLower preCodeOpen
        "<pre class=\"x\"><code><b>hi</b></code></pre>".data = 0
    ∧ renderHTMLCodeBlocks "<pre class=\"x\"><code><b>hi</b></code></pre>".data
      = "<pre class=\"x\"><code><b>hi</b></code></pre>".data :=
  ⟨by decide, c10_attributed_blocks_unchanged _ (by decide)⟩

end PdfService
